import Mathlib

/-!
Verification of the template rendering engine of the bakery order-printing
app (designer.js and app.js).

The JavaScript source is shallowly embedded: order records are association
lists from field names to values, JavaScript strings are `String`/`List Char`,
JavaScript numbers that occur in the data model are `Int`, and the two
regex-driven replacement passes of `renderOrderForPrint`/`renderPreview`
are modelled by explicit scanners that reproduce the behaviour of the
patterns used in the source, namely
  conditional pass: the global pattern matching a literal open brace pair,
    a hash sign, a nonempty greedy run of non-closing-brace characters, a
    closing brace pair, a lazy interior, and the corresponding closing tag
    (with the captured name repeated), and
  placeholder pass: the global pattern matching a brace pair, a nonempty
    greedy run of non-closing-brace characters, and a closing brace pair.
Both scanners advance one character on a failed match and continue after the
whole match (not rescanning the replacement) on success, as the JavaScript
global `String.replace` does.
-/

/-- A scalar value inside a line item: the source data model only carries
strings and numbers at this level. -/
inductive Scalar
  | str (s : String)
  | num (n : Int)
deriving DecidableEq, Repr

/-- One line item: a mapping from field name to scalar value
(association list, first binding wins as for JavaScript object lookup). -/
abbrev LineItem := List (String × Scalar)

/-- A top-level order field value: string, number, or the nested list of
line items held by the reserved field. -/
inductive Value
  | str (s : String)
  | num (n : Int)
  | items (l : List LineItem)
deriving DecidableEq, Repr

/-- An order record: mapping from field name to value. -/
abbrev OrderRecord := List (String × Value)

/-- JavaScript truthiness of a scalar: the empty string and the number zero
are falsy, everything else in the data model is truthy. -/
def Scalar.truthy : Scalar → Bool
  | .str s => s != ""
  | .num n => n != 0

/-- JavaScript display-string conversion of a scalar. -/
def Scalar.display : Scalar → String
  | .str s => s
  | .num n => toString n

/-- JavaScript truthiness of a top-level value: arrays are always truthy
objects, the empty string and zero are falsy. -/
def Value.truthy : Value → Bool
  | .str s => s != ""
  | .num n => n != 0
  | .items _ => true

/-- JavaScript display-string conversion of a top-level value; an array
stringifies as its elements joined by commas, a plain object as the fixed
object marker text. -/
def Value.display : Value → String
  | .str s => s
  | .num n => toString n
  | .items l => String.intercalate "," (l.map fun _ => "[object Object]")

/-- The whitespace class stripped by the JavaScript string trim method. -/
def isJsSpace (c : Char) : Bool :=
  c.isWhitespace || c = '\x0b' || c = '\x0c' || c = '\u00A0' || c = '\uFEFF'

/-- JavaScript trim on a character list: drop whitespace from both ends. -/
def trimL (l : List Char) : List Char :=
  ((l.dropWhile isJsSpace).reverse.dropWhile isJsSpace).reverse

/-- JavaScript trim giving back a string. -/
def trimStr (l : List Char) : String := String.mk (trimL l)

/-- One global single-character replace, as in the source replace calls of
`escHtml`: every occurrence of the character becomes the replacement text. -/
def replaceCharL (c : Char) (rep : List Char) (l : List Char) : List Char :=
  l.flatMap fun ch => if ch = c then rep else [ch]

/-- `escHtml` from app.js and designer.js: four sequential global replaces,
ampersand first, then the angle brackets, then the double quote. -/
def escHtmlL (l : List Char) : List Char :=
  replaceCharL '"' "&quot;".data
    (replaceCharL '>' "&gt;".data
      (replaceCharL '<' "&lt;".data
        (replaceCharL '&' "&amp;".data l)))

/-- String-level `escHtml`. -/
def escHtml (s : String) : String := String.mk (escHtmlL s.data)

/-- Display string of a looked-up order field with the nullish fallback of
the source (`order[k] ?? ''`). -/
def dispOf (o : OrderRecord) (k : String) : String :=
  match List.lookup k o with
  | some v => v.display
  | none => ""

/-- The JavaScript `||` on optional scalar operands: a present truthy left
operand wins, otherwise the right operand is taken unchanged. -/
def jsOrS : Option Scalar → Option Scalar → Option Scalar
  | some v, b => if v.truthy then some v else b
  | none, b => b

/-- Display string of an optional scalar with the `|| ''` tail of the
source: a present truthy value displays, everything else is empty. -/
def displayOrEmpty : Option Scalar → String
  | some v => if v.truthy then v.display else ""
  | none => ""

/-- `String(item[k] || '')` from the source table builders. -/
def getDisplayOr (item : LineItem) (k : String) : String :=
  displayOrEmpty (List.lookup k item)

/-- The fixed message returned by both table builders when there are no
line items. -/
def noItemsMsg : String :=
  "<p style=\"color:#666;font-style:italic;font-size:10pt;\">No line items.</p>"

/-- Opening markup of the line-items table (shared by both builders). -/
def tableOpen : String :=
  "<table class=\"slip-items-table\">\n    <thead>\n      <tr>\n        <th class=\"slip-check-cell\"></th>\n        <th class=\"slip-detail-cell\">Order Details</th>\n        <th class=\"slip-qty-cell\">Qty</th>\n      </tr>\n    </thead>\n    <tbody>"

/-- Closing markup of the line-items table. -/
def tableClose : String := "</tbody>\n  </table>"

/-- One conditional sub-line of the print table detail cell:
`item[k] ? '<div class="slip-sub">Label: ' + escHtml(item[k]) + '</div>' : ''`. -/
def subLine (item : LineItem) (k : String) (label : String) : String :=
  match List.lookup k item with
  | some v =>
      if v.truthy then
        "<div class=\"slip-sub\">" ++ label ++ ": " ++ escHtml v.display ++ "</div>"
      else ""
  | none => ""

/-- One table row of the print-context `buildLineItemsTable` (app.js):
product from the single candidate field, the four conditional sub-lines
joined with the empty separator, and the quantity from its single
candidate field. -/
def printRow (item : LineItem) : String :=
  "<tr>\n      <td class=\"slip-check-cell\"></td>\n      <td class=\"slip-detail-cell\">"
  ++ escHtml (getDisplayOr item "Product Description")
  ++ subLine item "Writing Notes" "Writing"
  ++ subLine item "Color" "Color"
  ++ subLine item "Add-Ons" "Add-Ons"
  ++ subLine item "Line Item Notes" "Notes"
  ++ "</td>\n      <td class=\"slip-qty-cell\">"
  ++ escHtml (getDisplayOr item "CakeQty")
  ++ "</td>\n    </tr>"

/-- `buildLineItemsTable` from app.js (print context). -/
def buildLineItemsTable (o : OrderRecord) : String :=
  match List.lookup "Line Items" o with
  | some (Value.items l) =>
      if l.isEmpty then noItemsMsg
      else tableOpen ++ String.join (l.map printRow) ++ tableClose
  | _ => noItemsMsg

/-- Product text of one preview-context row (designer.js): the candidate
chain `item['Product Name'] || item['Product'] || item['Item'] ||
item['Order Details'] || item['Description'] || ''`, then stringified. -/
def previewProduct (item : LineItem) : String :=
  displayOrEmpty
    (jsOrS (List.lookup "Product Name" item)
      (jsOrS (List.lookup "Product" item)
        (jsOrS (List.lookup "Item" item)
          (jsOrS (List.lookup "Order Details" item)
            (List.lookup "Description" item)))))

/-- Quantity text of one preview-context row (designer.js): the candidate
chain `item['Qty'] || item['Quantity'] || item['QTY'] || ''`, stringified. -/
def previewQty (item : LineItem) : String :=
  displayOrEmpty
    (jsOrS (List.lookup "Qty" item)
      (jsOrS (List.lookup "Quantity" item)
        (List.lookup "QTY" item)))

/-- One table row of the preview-context `buildLineItemsTable`
(designer.js): escaped product and quantity, no sub-lines. -/
def previewRow (item : LineItem) : String :=
  "<tr>\n      <td class=\"slip-check-cell\"></td>\n      <td class=\"slip-detail-cell\">"
  ++ escHtml (previewProduct item)
  ++ "</td>\n      <td class=\"slip-qty-cell\">"
  ++ escHtml (previewQty item)
  ++ "</td>\n    </tr>"

/-- `buildLineItemsTable` from designer.js (preview context). -/
def buildLineItemsTablePreview (o : OrderRecord) : String :=
  match List.lookup "Line Items" o with
  | some (Value.items l) =>
      if l.isEmpty then noItemsMsg
      else tableOpen ++ String.join (l.map previewRow) ++ tableClose
  | _ => noItemsMsg

/-- The field catalog computed by `populateFieldsList` (designer.js):
every top-level field name except the reserved line-items field, in
record order, each with the first forty characters of its display string,
followed by the two fixed synthetic entries. -/
def buildFieldCatalog (o : OrderRecord) : List (String × String) :=
  ((o.map Prod.fst).filter (fun k => k != "Line Items")).map
    (fun k => (k, String.mk ((dispOf o k).data.take 40)))
  ++ [("LINE_ITEMS_TABLE", "Renders a table of line items"),
      ("PRINT_DATE", "Today\x27s date at print time")]

/-- The built-in default template shipped by designer.js (editing surface). -/
def DEFAULT_TEMPLATE_designer : String :=
  "<!-- ═══ PACKING SLIP (top half) ═══ -->\n<div class=\"slip-half\">\n  <div class=\"slip-title\">Packing Slip</div>\n  <div class=\"slip-header\">\n    <div>\n      <div class=\"slip-order-id\">\x7b\x7bOrderID\x7d\x7d</div>\n      <h2 class=\"slip-customer\">\x7b\x7bOrder Name\x7d\x7d</h2>\n    </div>\n    <span class=\"slip-count\">\x7b\x7bOrder Count\x7d\x7d</span>\n  </div>\n  <div class=\"slip-meta\">\n    <div><strong>Due Date:</strong> \x7b\x7bDue Pickup Date\x7d\x7d</div>\n    <div><strong>Due Time:</strong> \x7b\x7bDue Pickup Time\x7d\x7d</div>\n    <div><strong>Number:</strong> \x7b\x7bPhoneNumber\x7d\x7d</div>\n  </div>\n  \x7b\x7bLINE_ITEMS_TABLE\x7d\x7d\n</div>\n\n<hr class=\"slip-divider\">\n\n<!-- ═══ BAKERY SHEET (bottom half) ═══ -->\n<div class=\"slip-half\">\n  <div class=\"slip-title\">Bakery Sheet</div>\n  <div class=\"slip-header\">\n    <div>\n      <div class=\"slip-order-id\">\x7b\x7bOrderID\x7d\x7d</div>\n      <h2 class=\"slip-customer\">\x7b\x7bOrder Name\x7d\x7d</h2>\n    </div>\n    <span class=\"slip-count\">\x7b\x7bOrder Count\x7d\x7d</span>\n  </div>\n  <div class=\"slip-meta\">\n    <div><strong>Due Date:</strong> \x7b\x7bDue Pickup Date\x7d\x7d</div>\n    <div><strong>Due Time:</strong> \x7b\x7bDue Pickup Time\x7d\x7d</div>\n    <div><strong>Number:</strong> \x7b\x7bPhoneNumber\x7d\x7d</div>\n  </div>\n  \x7b\x7bLINE_ITEMS_TABLE\x7d\x7d\n</div>"

/-- The built-in default template shipped by app.js (printing surface). -/
def DEFAULT_TEMPLATE_app : String :=
  "<!-- ═══ PACKING SLIP (top half) ═══ -->\n<div class=\"slip-half\">\n  <div class=\"slip-title\">Packing Slip</div>\n  <div class=\"slip-header\">\n    <div>\n      <div class=\"slip-order-id\">\x7b\x7bOrderID\x7d\x7d</div>\n      <h2 class=\"slip-customer\">\x7b\x7bOrder Name\x7d\x7d</h2>\n    </div>\n    <span class=\"slip-count\">\x7b\x7bOrder Count\x7d\x7d</span>\n  </div>\n  <div class=\"slip-meta\">\n    <div><strong>Due Date:</strong> \x7b\x7bDue Pickup Date\x7d\x7d</div>\n    <div><strong>Due Time:</strong> \x7b\x7bDue Pickup Time\x7d\x7d</div>\n    <div><strong>Number:</strong> \x7b\x7bPhoneNumber\x7d\x7d</div>\n  </div>\n  \x7b\x7bLINE_ITEMS_TABLE\x7d\x7d\n</div>\n\n<hr class=\"slip-divider\">\n\n<!-- ═══ BAKERY SHEET (bottom half) ═══ -->\n<div class=\"slip-half\">\n  <div class=\"slip-title\">Bakery Sheet</div>\n  <div class=\"slip-header\">\n    <div>\n      <div class=\"slip-order-id\">\x7b\x7bOrderID\x7d\x7d</div>\n      <h2 class=\"slip-customer\">\x7b\x7bOrder Name\x7d\x7d</h2>\n    </div>\n    <span class=\"slip-count\">\x7b\x7bOrder Count\x7d\x7d</span>\n  </div>\n  <div class=\"slip-meta\">\n    <div><strong>Due Date:</strong> \x7b\x7bDue Pickup Date\x7d\x7d</div>\n    <div><strong>Due Time:</strong> \x7b\x7bDue Pickup Time\x7d\x7d</div>\n    <div><strong>Number:</strong> \x7b\x7bPhoneNumber\x7d\x7d</div>\n  </div>\n  \x7b\x7bLINE_ITEMS_TABLE\x7d\x7d\n</div>"

/-- Split a character list at the first occurrence of a pattern: returns
the part before the occurrence and the part after it. This models the lazy
interior capture of the conditional-block pattern, which extends exactly to
the first occurrence of the closing tag. -/
def splitOnSub (pat : List Char) : List Char → Option (List Char × List Char)
  | [] => none
  | c :: cs =>
    if pat.isPrefixOf (c :: cs) then some ([], (c :: cs).drop pat.length)
    else
      match splitOnSub pat cs with
      | some (pre, rest) => some (c :: pre, rest)
      | none => none

/-- Whether a string occurs as a contiguous substring of another. -/
def strContains (s pat : String) : Bool := (splitOnSub pat.data s.data).isSome

/-- Recognise the closing brace pair that ends a placeholder or an
opening tag, returning what follows it. -/
def closeBB : List Char → Option (List Char)
  | c3 :: c4 :: u => if c3 = '}' && c4 = '}' then some u else none
  | _ => none

/-- Attempt to match the conditional-block pattern at the head of the
list. On success returns the captured name, the lazily captured interior
and the remainder after the closing tag; mirrors
  open brace pair, hash, greedy nonempty run of non-closing-brace
  characters, closing brace pair, lazy interior, closing tag with the
  same name. -/
def matchCondAt (l : List Char) : Option (List Char × List Char × List Char) :=
  match l with
  | c1 :: c2 :: c3 :: t =>
    if c1 = '{' && c2 = '{' && c3 = '#' then
      let name := t.takeWhile (fun c => c != '}')
      if name.isEmpty then none
      else
        match closeBB (t.dropWhile (fun c => c != '}')) with
        | some u =>
          (splitOnSub ('{' :: '{' :: '/' :: (name ++ ['}', '}'])) u).map
            (fun p => (name, p))
        | none => none
    else none
  | _ => none

/-- Attempt to match the plain placeholder pattern at the head of the
list. On success returns the captured key and the remainder. -/
def matchPHAt (l : List Char) : Option (List Char × List Char) :=
  match l with
  | c1 :: c2 :: t =>
    if c1 = '{' && c2 = '{' then
      let key := t.takeWhile (fun c => c != '}')
      if key.isEmpty then none
      else (closeBB (t.dropWhile (fun c => c != '}'))).map (fun u => (key, u))
    else none
  | _ => none

/-- The keep-or-drop decision of the conditional pass:
`(val && String(val).trim()) ? content : ''` after the lookup
`order[key.trim()]`. -/
def condKeep (o : OrderRecord) (name : List Char) : Bool :=
  match List.lookup (trimStr name) o with
  | some v => v.truthy && !(trimL (Value.display v).data).isEmpty
  | none => false

/-- Fuel-driven conditional-pass scanner; the fuel only serves to make the
recursion structural, every use supplies at least the list length. -/
def condPassF (o : OrderRecord) : Nat → List Char → List Char
  | _, [] => []
  | 0, _ :: _ => []
  | fuel + 1, c :: cs =>
    match matchCondAt (c :: cs) with
    | some (name, content, rest) =>
        (if condKeep o name then content else []) ++ condPassF o fuel rest
    | none => c :: condPassF o fuel cs

/-- Pass 1 of the renderer: resolve the conditional blocks. -/
def condPass (o : OrderRecord) (l : List Char) : List Char :=
  condPassF o l.length l

/-- The replacement text chosen by the placeholder pass for one captured
key: the reserved line-items token, the reserved print-date token, or the
escaped display string of the looked-up field (empty when absent). The
table builder is a parameter because the two surfaces use different
builders; `date` stands for the wall-clock short date string read at
render time. -/
def phReplace (tf : OrderRecord → String) (date : String) (o : OrderRecord)
    (key : List Char) : List Char :=
  if trimStr key = "LINE_ITEMS_TABLE" then (tf o).data
  else if trimStr key = "PRINT_DATE" then date.data
  else (escHtml (dispOf o (trimStr key))).data

/-- Fuel-driven placeholder-pass scanner. -/
def substPassF (tf : OrderRecord → String) (date : String) (o : OrderRecord) :
    Nat → List Char → List Char
  | _, [] => []
  | 0, _ :: _ => []
  | fuel + 1, c :: cs =>
    match matchPHAt (c :: cs) with
    | some (key, rest) => phReplace tf date o key ++ substPassF tf date o fuel rest
    | none => c :: substPassF tf date o fuel cs

/-- Pass 2 of the renderer: substitute the placeholders. -/
def substPass (tf : OrderRecord → String) (date : String) (o : OrderRecord)
    (l : List Char) : List Char :=
  substPassF tf date o l.length l

/-- The shared two-pass rendering engine: conditional resolution, then
placeholder substitution, parameterised by the table builder of the
calling surface. -/
def renderTemplate (tf : OrderRecord → String) (date : String) (t : String)
    (o : OrderRecord) : String :=
  String.mk (substPass tf date o (condPass o t.data))

/-- The rendering core of `renderOrderForPrint` (app.js), before the
wrapping division element is added. -/
def renderPrint (date : String) (t : String) (o : OrderRecord) : String :=
  renderTemplate buildLineItemsTable date t o

/-- `renderOrderForPrint` (app.js): the rendered template wrapped in the
print-order division, with the template passed explicitly in place of the
stored-template read. -/
def renderOrderForPrint (date : String) (t : String) (o : OrderRecord) : String :=
  "<div class=\"print-order\">" ++ renderPrint date t o ++ "</div>"

/-- The rendering core of `renderPreview` (designer.js), which uses the
preview-context table builder. -/
def renderPreviewCore (date : String) (t : String) (o : OrderRecord) : String :=
  renderTemplate buildLineItemsTablePreview date t o

/-- Fuel-driven scan deciding whether the placeholder pass would perform
the print-date substitution anywhere in the list. -/
def usesDateF : Nat → List Char → Bool
  | _, [] => false
  | 0, _ :: _ => false
  | fuel + 1, c :: cs =>
    match matchPHAt (c :: cs) with
    | some (key, rest) => (trimStr key = "PRINT_DATE") || usesDateF fuel rest
    | none => usesDateF fuel cs

/-- Whether the placeholder pass reads the wall clock on this input. -/
def usesDate (l : List Char) : Bool := usesDateF l.length l

/-- Whether two consecutive open braces occur anywhere in the list (the
start of a placeholder match). -/
def hasOpen : List Char → Bool
  | c1 :: c2 :: cs => (c1 = '{' && c2 = '{') || hasOpen (c2 :: cs)
  | _ => false

/-- Whether an open brace pair followed by a hash occurs anywhere in the
list (the start of a conditional-block match). -/
def hasCondOpen : List Char → Bool
  | c1 :: c2 :: c3 :: cs => (c1 = '{' && c2 = '{' && c3 = '#') || hasCondOpen (c2 :: c3 :: cs)
  | _ => false

/-- Whether an open brace pair followed by a slash occurs anywhere in the
list (the start of a closing tag). -/
def hasCloseOpen : List Char → Bool
  | c1 :: c2 :: c3 :: cs => (c1 = '{' && c2 = '{' && c3 = '/') || hasCloseOpen (c2 :: c3 :: cs)
  | _ => false

theorem hasOpen_tail {x : Char} {l : List Char} (h : hasOpen (x :: l) = false) :
    hasOpen l = false := by
  match l with
  | [] => rfl
  | y :: ys =>
    rw [hasOpen] at h
    exact (Bool.or_eq_false_iff.mp h).2

theorem hasCondOpen_tail {x : Char} {l : List Char}
    (h : hasCondOpen (x :: l) = false) : hasCondOpen l = false := by
  match l with
  | [] => rfl
  | [y] => rfl
  | y :: z :: ys =>
    rw [hasCondOpen] at h
    exact (Bool.or_eq_false_iff.mp h).2

theorem hasCloseOpen_tail {x : Char} {l : List Char}
    (h : hasCloseOpen (x :: l) = false) : hasCloseOpen l = false := by
  match l with
  | [] => rfl
  | [y] => rfl
  | y :: z :: ys =>
    rw [hasCloseOpen] at h
    exact (Bool.or_eq_false_iff.mp h).2

theorem takeWhile_app {p : Char → Bool} {a : List Char} {b : Char} {t : List Char}
    (ha : ∀ x ∈ a, p x = true) (hb : p b = false) :
    (a ++ b :: t).takeWhile p = a := by
  induction a with
  | nil => simp [List.takeWhile_cons, hb]
  | cons x xs ih =>
      have hx : p x = true := ha x (by simp)
      simp only [List.cons_append, List.takeWhile_cons, hx, if_true]
      rw [ih (fun y hy => ha y (by simp [hy]))]

theorem dropWhile_app {p : Char → Bool} {a : List Char} {b : Char} {t : List Char}
    (ha : ∀ x ∈ a, p x = true) (hb : p b = false) :
    (a ++ b :: t).dropWhile p = b :: t := by
  induction a with
  | nil => simp [List.dropWhile_cons, hb]
  | cons x xs ih =>
      have hx : p x = true := ha x (by simp)
      simp only [List.cons_append, List.dropWhile_cons, hx, if_true]
      exact ih (fun y hy => ha y (by simp [hy]))

theorem isPre_self_app : ∀ (l r : List Char), l.isPrefixOf (l ++ r) = true := by
  intro l r
  induction l with
  | nil => simp [List.isPrefixOf]
  | cons x xs ih => simp [List.isPrefixOf, ih]

theorem splitOnSub_append {pat : List Char} :
    ∀ {l p r : List Char}, splitOnSub pat l = some (p, r) → l = p ++ pat ++ r := by
  intro l
  induction l with
  | nil => intro p r h; simp [splitOnSub] at h
  | cons c cs ih =>
    intro p r h
    rw [splitOnSub] at h
    by_cases hp : pat.isPrefixOf (c :: cs) = true
    · rw [if_pos hp] at h
      obtain ⟨t, ht⟩ := List.isPrefixOf_iff_prefix.mp hp
      have hdrop : (c :: cs).drop pat.length = t := by
        rw [← ht]; exact List.drop_left pat t
      have hp' : p = [] ∧ r = t := by
        rw [hdrop] at h
        exact ⟨(Prod.mk.injEq _ _ _ _ ▸ Option.some.injEq _ _ ▸ h).1.symm,
               (Prod.mk.injEq _ _ _ _ ▸ Option.some.injEq _ _ ▸ h).2.symm⟩
      rw [hp'.1, hp'.2, List.nil_append, ht]
    · rw [if_neg hp] at h
      cases hsub : splitOnSub pat cs with
      | none => rw [hsub] at h; simp at h
      | some pr =>
        obtain ⟨pre0, rest0⟩ := pr
        rw [hsub] at h
        have h1 : p = c :: pre0 ∧ r = rest0 := by
          exact ⟨(Prod.mk.injEq _ _ _ _ ▸ Option.some.injEq _ _ ▸ h).1.symm,
                 (Prod.mk.injEq _ _ _ _ ▸ Option.some.injEq _ _ ▸ h).2.symm⟩
        rw [h1.1, h1.2]
        have := ih hsub
        simp [this]

theorem closeBB_shape {x u : List Char} (h : closeBB x = some u) :
    x = '}' :: '}' :: u := by
  match x with
  | [] => simp [closeBB] at h
  | [c] => simp [closeBB] at h
  | c3 :: c4 :: u' =>
    rw [closeBB] at h
    by_cases hb : (c3 = '}' && c4 = '}') = true
    · rw [if_pos hb] at h
      obtain ⟨h3, h4⟩ := Bool.and_eq_true_iff.mp hb
      rw [of_decide_eq_true h3, of_decide_eq_true h4, Option.some.inj h]
    · rw [if_neg hb] at h; exact absurd h (by simp)

theorem matchPHAt_shape {l k u : List Char} (h : matchPHAt l = some (k, u)) :
    ∃ t, l = '{' :: '{' :: t ∧ k = t.takeWhile (fun c => c != '}') ∧ k ≠ [] ∧
      t.dropWhile (fun c => c != '}') = '}' :: '}' :: u := by
  match l with
  | [] => simp [matchPHAt] at h
  | [c1] => simp [matchPHAt] at h
  | c1 :: c2 :: t =>
    rw [matchPHAt] at h
    by_cases hb : (c1 = '{' && c2 = '{') = true
    · rw [if_pos hb] at h
      obtain ⟨h1, h2⟩ := Bool.and_eq_true_iff.mp hb
      have hc1 : c1 = '{' := of_decide_eq_true h1
      have hc2 : c2 = '{' := of_decide_eq_true h2
      subst hc1; subst hc2
      by_cases he : (t.takeWhile (fun c => c != '}')).isEmpty = true
      · rw [if_pos he] at h; exact absurd h (by simp)
      · rw [if_neg he] at h
        obtain ⟨u', hu', hmap⟩ := Option.map_eq_some'.mp h
        have hk : k = t.takeWhile (fun c => c != '}') :=
          (Prod.mk.injEq _ _ _ _ ▸ hmap).1.symm
        have huu : u' = u := (Prod.mk.injEq _ _ _ _ ▸ hmap).2
        refine ⟨t, rfl, hk, ?_, by rw [closeBB_shape hu', huu]⟩
        intro hknil
        exact he (by simp [hk ▸ hknil])
    · rw [if_neg hb] at h; exact absurd h (by simp)

theorem matchCondAt_shape {l n ct r : List Char} (h : matchCondAt l = some (n, ct, r)) :
    ∃ t u, l = '{' :: '{' :: '#' :: t ∧ n = t.takeWhile (fun c => c != '}') ∧ n ≠ [] ∧
      t.dropWhile (fun c => c != '}') = '}' :: '}' :: u ∧
      u = ct ++ ('{' :: '{' :: '/' :: (n ++ ['}', '}'])) ++ r := by
  match l with
  | [] => simp [matchCondAt] at h
  | [c1] => simp [matchCondAt] at h
  | [c1, c2] => simp [matchCondAt] at h
  | c1 :: c2 :: c3 :: t =>
    rw [matchCondAt] at h
    by_cases hb : (c1 = '{' && c2 = '{' && c3 = '#') = true
    · rw [if_pos hb] at h
      obtain ⟨hb', h3⟩ := Bool.and_eq_true_iff.mp hb
      obtain ⟨h1, h2⟩ := Bool.and_eq_true_iff.mp hb'
      have hc1 : c1 = '{' := of_decide_eq_true h1
      have hc2 : c2 = '{' := of_decide_eq_true h2
      have hc3 : c3 = '#' := of_decide_eq_true h3
      subst hc1; subst hc2; subst hc3
      by_cases he : (t.takeWhile (fun c => c != '}')).isEmpty = true
      · rw [if_pos he] at h; exact absurd h (by simp)
      · rw [if_neg he] at h
        cases hcb : closeBB (t.dropWhile (fun c => c != '}')) with
        | none => rw [hcb] at h; exact absurd h (by simp)
        | some u =>
          rw [hcb] at h
          obtain ⟨p, hp, hmap⟩ := Option.map_eq_some'.mp h
          have hn : t.takeWhile (fun c => c != '}') = n := congrArg Prod.fst hmap
          have hpctr : p = (ct, r) := congrArg Prod.snd hmap
          subst hpctr
          refine ⟨t, u, rfl, hn.symm, ?_, closeBB_shape hcb, ?_⟩
          · intro hknil
            rw [← hn] at hknil
            exact he (by simp [hknil])
          · rw [← hn]
            exact splitOnSub_append hp
    · rw [if_neg hb] at h; exact absurd h (by simp)

theorem matchPHAt_length {l k u : List Char} (h : matchPHAt l = some (k, u)) :
    u.length < l.length := by
  obtain ⟨t, hl, hk, _, hd⟩ := matchPHAt_shape h
  have ht : t.takeWhile (fun c => c != '}') ++ t.dropWhile (fun c => c != '}') = t :=
    List.takeWhile_append_dropWhile (fun c => c != '}') t
  have ht' := congrArg List.length ht
  rw [List.length_append, ← hk, hd] at ht'
  have hl' := congrArg List.length hl
  simp only [List.length_cons] at ht' hl' ⊢
  omega

theorem matchCondAt_length {l n ct r : List Char} (h : matchCondAt l = some (n, ct, r)) :
    r.length < l.length := by
  obtain ⟨t, u, hl, hn, _, hd, hu⟩ := matchCondAt_shape h
  have ht : t.takeWhile (fun c => c != '}') ++ t.dropWhile (fun c => c != '}') = t :=
    List.takeWhile_append_dropWhile (fun c => c != '}') t
  have ht' := congrArg List.length ht
  rw [List.length_append, ← hn, hd] at ht'
  have hl' := congrArg List.length hl
  have hu' := congrArg List.length hu
  simp only [List.length_cons, List.length_append] at ht' hl' hu' ⊢
  omega

theorem condPassF_irrel (o : OrderRecord) :
    ∀ (f1 : Nat) (f2 : Nat) (l : List Char), l.length ≤ f1 → l.length ≤ f2 →
      condPassF o f1 l = condPassF o f2 l := by
  intro f1
  induction f1 with
  | zero =>
    intro f2 l h1 _
    have hl : l = [] := List.eq_nil_of_length_eq_zero (Nat.le_zero.mp h1)
    subst hl
    cases f2 <;> rfl
  | succ g ih =>
    intro f2 l h1 h2
    cases l with
    | nil => cases f2 <;> rfl
    | cons c cs =>
      cases f2 with
      | zero => simp at h2
      | succ g2 =>
        cases h : matchCondAt (c :: cs) with
        | some tpl =>
          obtain ⟨n, ct, r⟩ := tpl
          have hr := matchCondAt_length h
          simp only [List.length_cons] at h1 h2 hr
          simp only [condPassF, h]
          rw [ih g2 r (by omega) (by omega)]
        | none =>
          simp only [List.length_cons] at h1 h2
          simp only [condPassF, h]
          rw [ih g2 cs (by omega) (by omega)]

theorem substPassF_irrel (tf : OrderRecord → String) (date : String) (o : OrderRecord) :
    ∀ (f1 : Nat) (f2 : Nat) (l : List Char), l.length ≤ f1 → l.length ≤ f2 →
      substPassF tf date o f1 l = substPassF tf date o f2 l := by
  intro f1
  induction f1 with
  | zero =>
    intro f2 l h1 _
    have hl : l = [] := List.eq_nil_of_length_eq_zero (Nat.le_zero.mp h1)
    subst hl
    cases f2 <;> rfl
  | succ g ih =>
    intro f2 l h1 h2
    cases l with
    | nil => cases f2 <;> rfl
    | cons c cs =>
      cases f2 with
      | zero => simp at h2
      | succ g2 =>
        cases h : matchPHAt (c :: cs) with
        | some pr =>
          obtain ⟨k, r⟩ := pr
          have hr := matchPHAt_length h
          simp only [List.length_cons] at h1 h2 hr
          simp only [substPassF, h]
          rw [ih g2 r (by omega) (by omega)]
        | none =>
          simp only [List.length_cons] at h1 h2
          simp only [substPassF, h]
          rw [ih g2 cs (by omega) (by omega)]

theorem usesDateF_irrel :
    ∀ (f1 : Nat) (f2 : Nat) (l : List Char), l.length ≤ f1 → l.length ≤ f2 →
      usesDateF f1 l = usesDateF f2 l := by
  intro f1
  induction f1 with
  | zero =>
    intro f2 l h1 _
    have hl : l = [] := List.eq_nil_of_length_eq_zero (Nat.le_zero.mp h1)
    subst hl
    cases f2 <;> rfl
  | succ g ih =>
    intro f2 l h1 h2
    cases l with
    | nil => cases f2 <;> rfl
    | cons c cs =>
      cases f2 with
      | zero => simp at h2
      | succ g2 =>
        cases h : matchPHAt (c :: cs) with
        | some pr =>
          obtain ⟨k, r⟩ := pr
          have hr := matchPHAt_length h
          simp only [List.length_cons] at h1 h2 hr
          simp only [usesDateF, h]
          rw [ih g2 r (by omega) (by omega)]
        | none =>
          simp only [List.length_cons] at h1 h2
          simp only [usesDateF, h]
          rw [ih g2 cs (by omega) (by omega)]

theorem condPass_nil (o : OrderRecord) : condPass o [] = [] := rfl

theorem condPass_cons_some {o : OrderRecord} {c : Char} {cs n ct r : List Char}
    (h : matchCondAt (c :: cs) = some (n, ct, r)) :
    condPass o (c :: cs) = (if condKeep o n then ct else []) ++ condPass o r := by
  have hr := matchCondAt_length h
  simp only [List.length_cons] at hr
  simp only [condPass, List.length_cons, condPassF, h]
  rw [condPassF_irrel o cs.length r.length r (by omega) (by omega)]

theorem condPass_cons_none {o : OrderRecord} {c : Char} {cs : List Char}
    (h : matchCondAt (c :: cs) = none) :
    condPass o (c :: cs) = c :: condPass o cs := by
  simp only [condPass, List.length_cons, condPassF, h]

theorem substPass_nil (tf : OrderRecord → String) (date : String) (o : OrderRecord) :
    substPass tf date o [] = [] := rfl

theorem substPass_cons_some {tf : OrderRecord → String} {date : String}
    {o : OrderRecord} {c : Char} {cs k r : List Char}
    (h : matchPHAt (c :: cs) = some (k, r)) :
    substPass tf date o (c :: cs) = phReplace tf date o k ++ substPass tf date o r := by
  have hr := matchPHAt_length h
  simp only [List.length_cons] at hr
  simp only [substPass, List.length_cons, substPassF, h]
  rw [substPassF_irrel tf date o cs.length r.length r (by omega) (by omega)]

theorem substPass_cons_none {tf : OrderRecord → String} {date : String}
    {o : OrderRecord} {c : Char} {cs : List Char}
    (h : matchPHAt (c :: cs) = none) :
    substPass tf date o (c :: cs) = c :: substPass tf date o cs := by
  simp only [substPass, List.length_cons, substPassF, h]

theorem usesDate_cons_some {c : Char} {cs k r : List Char}
    (h : matchPHAt (c :: cs) = some (k, r)) :
    usesDate (c :: cs) = ((trimStr k = "PRINT_DATE") || usesDate r) := by
  have hr := matchPHAt_length h
  simp only [List.length_cons] at hr
  simp only [usesDate, List.length_cons, usesDateF, h]
  rw [usesDateF_irrel cs.length r.length r (by omega) (by omega)]

theorem usesDate_cons_none {c : Char} {cs : List Char}
    (h : matchPHAt (c :: cs) = none) :
    usesDate (c :: cs) = usesDate cs := by
  simp only [usesDate, List.length_cons, usesDateF, h]

theorem matchPHAt_not_open {c1 c2 : Char} {t : List Char}
    (h : (c1 = '{' && c2 = '{') = false) : matchPHAt (c1 :: c2 :: t) = none := by
  rw [matchPHAt, if_neg (by simp [h])]

theorem matchCondAt_not_open {c1 c2 c3 : Char} {t : List Char}
    (h : (c1 = '{' && c2 = '{' && c3 = '#') = false) :
    matchCondAt (c1 :: c2 :: c3 :: t) = none := by
  rw [matchCondAt, if_neg (by simp [h])]

theorem matchPHAt_head {k rest : List Char} (hk : k ≠ []) (hk2 : ∀ x ∈ k, x ≠ '}') :
    matchPHAt ('{' :: '{' :: (k ++ '}' :: '}' :: rest)) = some (k, rest) := by
  have hpred : ∀ x ∈ k, ((fun c => c != '}') x) = true := by
    intro x hx; simp [hk2 x hx]
  have hbr : ((fun c => c != '}') '}') = false := by simp
  simp only [matchPHAt]
  rw [takeWhile_app hpred hbr, dropWhile_app hpred hbr]
  rw [if_pos (by simp)]
  simp [closeBB, hk]

theorem closeTag_not_pre {x : Char} {c' tail r : List Char}
    (h : hasCloseOpen (x :: c') = false) :
    ('{' :: '{' :: '/' :: tail).isPrefixOf (x :: (c' ++ ('{' :: '{' :: '/' :: tail) ++ r)) = false := by
  match c' with
  | [] =>
    simp only [List.nil_append, List.isPrefixOf, List.cons_append]
    simp
  | [y] =>
    simp only [List.cons_append, List.nil_append, List.isPrefixOf]
    simp
  | y :: z :: c'' =>
    simp only [List.cons_append, List.isPrefixOf]
    rw [hasCloseOpen] at h
    have h1 : (decide (x = '{') && decide (y = '{') && decide (z = '/')) = false :=
      (Bool.or_eq_false_iff.mp h).1
    rcases Bool.and_eq_false_iff.mp h1 with h2 | hz
    · rcases Bool.and_eq_false_iff.mp h2 with hx | hy
      · simp only [Bool.and_eq_false_iff]
        exact Or.inl (beq_eq_false_iff_ne.mpr (Ne.symm (of_decide_eq_false hx)))
      · simp only [Bool.and_eq_false_iff]
        exact Or.inr (Or.inl (beq_eq_false_iff_ne.mpr (Ne.symm (of_decide_eq_false hy))))
    · simp only [Bool.and_eq_false_iff]
      exact Or.inr (Or.inr (Or.inl (beq_eq_false_iff_ne.mpr (Ne.symm (of_decide_eq_false hz)))))

theorem splitOnSub_exact :
    ∀ (c : List Char) (tail r : List Char), hasCloseOpen c = false →
      splitOnSub ('{' :: '{' :: '/' :: tail) (c ++ ('{' :: '{' :: '/' :: tail) ++ r) =
        some (c, r) := by
  intro c
  induction c with
  | nil =>
    intro tail r _
    simp only [List.nil_append]
    rw [show ('{' :: '{' :: '/' :: tail) ++ r = '{' :: (('{' :: '/' :: tail) ++ r) from rfl]
    rw [splitOnSub]
    have hp : ('{' :: '{' :: '/' :: tail).isPrefixOf ('{' :: (('{' :: '/' :: tail) ++ r)) = true :=
      isPre_self_app ('{' :: '{' :: '/' :: tail) r
    rw [if_pos hp]
    have hd : List.drop ('{' :: '{' :: '/' :: tail).length ('{' :: (('{' :: '/' :: tail) ++ r)) = r :=
      List.drop_left ('{' :: '{' :: '/' :: tail) r
    rw [hd]
  | cons x c' ih =>
    intro tail r h
    rw [show ((x :: c') ++ ('{' :: '{' :: '/' :: tail) ++ r)
          = x :: (c' ++ ('{' :: '{' :: '/' :: tail) ++ r) from by simp]
    rw [splitOnSub]
    rw [if_neg (by rw [closeTag_not_pre h]; simp)]
    rw [ih tail r (hasCloseOpen_tail h)]

theorem matchCondAt_head {n c rest : List Char} (hn : n ≠ []) (hn2 : ∀ x ∈ n, x ≠ '}')
    (hc : hasCloseOpen c = false) :
    matchCondAt ('{' :: '{' :: '#' ::
        (n ++ '}' :: '}' :: (c ++ '{' :: '{' :: '/' :: (n ++ '}' :: '}' :: rest))))
      = some (n, c, rest) := by
  have hpred : ∀ x ∈ n, ((fun ch => ch != '}') x) = true := by
    intro x hx; simp [hn2 x hx]
  have hbr : ((fun ch => ch != '}') '}') = false := by simp
  simp only [matchCondAt]
  rw [if_pos (by simp)]
  rw [takeWhile_app hpred hbr, dropWhile_app hpred hbr]
  rw [if_neg (by simp [hn])]
  rw [show closeBB ('}' :: '}' :: (c ++ '{' :: '{' :: '/' :: (n ++ '}' :: '}' :: rest)))
        = some (c ++ '{' :: '{' :: '/' :: (n ++ '}' :: '}' :: rest)) from by simp [closeBB]]
  show Option.map (fun p => (n, p))
      (splitOnSub ('{' :: '{' :: '/' :: (n ++ ['}', '}']))
        (c ++ '{' :: '{' :: '/' :: (n ++ '}' :: '}' :: rest))) = some (n, c, rest)
  rw [show (c ++ '{' :: '{' :: '/' :: (n ++ '}' :: '}' :: rest))
        = (c ++ ('{' :: '{' :: '/' :: (n ++ ['}', '}']))) ++ rest from by simp]
  rw [splitOnSub_exact c (n ++ ['}', '}']) rest hc]
  rfl

theorem condPass_pre {o : OrderRecord} :
    ∀ {pre : List Char} (w : List Char), hasCondOpen (pre ++ ['{', '{']) = false →
      condPass o (pre ++ '{' :: '{' :: w) = pre ++ condPass o ('{' :: '{' :: w) := by
  intro pre
  induction pre with
  | nil => intro w _; rfl
  | cons x pre' ih =>
    intro w h
    have hnone : matchCondAt (x :: (pre' ++ '{' :: '{' :: w)) = none := by
      match pre' with
      | [] => exact matchCondAt_not_open (by simp)
      | [y] => exact matchCondAt_not_open (by simp)
      | y :: z :: pre'' =>
        apply matchCondAt_not_open
        simp only [List.cons_append] at h
        rw [hasCondOpen] at h
        exact (Bool.or_eq_false_iff.mp h).1
    rw [show (x :: pre') ++ '{' :: '{' :: w = x :: (pre' ++ '{' :: '{' :: w) from rfl]
    rw [condPass_cons_none hnone]
    rw [ih w (hasCondOpen_tail h)]
    rfl

theorem substPass_pre {tf : OrderRecord → String} {date : String} {o : OrderRecord} :
    ∀ {pre : List Char} (w : List Char), hasOpen (pre ++ ['{']) = false →
      substPass tf date o (pre ++ '{' :: w) = pre ++ substPass tf date o ('{' :: w) := by
  intro pre
  induction pre with
  | nil => intro w _; rfl
  | cons x pre' ih =>
    intro w h
    have hnone : matchPHAt (x :: (pre' ++ '{' :: w)) = none := by
      match pre' with
      | [] =>
        apply matchPHAt_not_open
        simp only [List.cons_append, List.nil_append] at h
        rw [hasOpen] at h
        exact (Bool.or_eq_false_iff.mp h).1
      | y :: pre'' =>
        apply matchPHAt_not_open
        simp only [List.cons_append] at h
        rw [hasOpen] at h
        exact (Bool.or_eq_false_iff.mp h).1
    rw [show (x :: pre') ++ '{' :: w = x :: (pre' ++ '{' :: w) from rfl]
    rw [substPass_cons_none hnone]
    rw [ih w (hasOpen_tail h)]
    rfl

/-- C1 (amended): in the conditional pass, a block located after any
already-scanned prefix that starts no conditional match is replaced by its
raw interior exactly when the looked-up field is present, truthy in the
JavaScript sense, and displays with non-whitespace content; otherwise by
the empty string. Scanning then continues after the closing tag, so later
blocks (with the same or different names) are resolved independently
against the same record. -/
theorem cond_blocks_resolved (o : OrderRecord) (pre n c rest : List Char)
    (hpre : hasCondOpen (pre ++ ['{', '{']) = false)
    (hn : n ≠ []) (hn2 : ∀ x ∈ n, x ≠ '}')
    (hc : hasCloseOpen c = false) :
    condPass o (pre ++ '{' :: '{' :: '#' ::
        (n ++ '}' :: '}' :: (c ++ '{' :: '{' :: '/' :: (n ++ '}' :: '}' :: rest))))
      = pre ++ (if condKeep o n then c else []) ++ condPass o rest := by
  rw [condPass_pre _ hpre]
  rw [condPass_cons_some (matchCondAt_head hn hn2 hc)]
  rw [List.append_assoc]

/-- C1 witness: a block whose field is a non-empty string keeps its
interior. -/
theorem cond_blocks_resolved_witness :
    condPass [("Status", Value.str "Shipped")] ("ab".data ++ '{' :: '{' :: '#' ::
        ("Status".data ++ '}' :: '}' :: ("X".data ++ '{' :: '{' :: '/' ::
          ("Status".data ++ '}' :: '}' :: "cd".data))))
      = "ab".data ++ (if condKeep [("Status", Value.str "Shipped")] "Status".data
          then "X".data else []) ++ condPass [("Status", Value.str "Shipped")] "cd".data :=
  cond_blocks_resolved [("Status", Value.str "Shipped")] "ab".data "Status".data "X".data
    "cd".data (by decide) (by decide) (by decide) (by decide)

/-- C1 counterexample: the field `A` is present with value `0`, whose
display string `0` has non-whitespace content, yet the block is dropped
because the number zero is falsy; the claim demands the interior `X`. -/
theorem cond_blocks_zero_cex :
    List.lookup "A" [("A", Value.num 0)] = some (Value.num 0)
    ∧ trimL (Value.display (Value.num 0)).data ≠ []
    ∧ renderPrint "1/1/2026" "\x7b\x7b#A\x7d\x7dX\x7b\x7b/A\x7d\x7d" [("A", Value.num 0)] = ""
    ∧ renderPrint "1/1/2026" "\x7b\x7b#A\x7d\x7dX\x7b\x7b/A\x7d\x7d" [("A", Value.num 0)] ≠ "X" := by
  refine ⟨by decide, by decide, by decide, by decide⟩

/-- C2: in the placeholder pass, a placeholder whose trimmed key is
neither reserved token is replaced by the escaped display string of the
looked-up field, the empty string when the field is absent; the
substitution is total and scanning continues after the placeholder. -/
theorem placeholders_substituted (tf : OrderRecord → String) (date : String)
    (o : OrderRecord) (pre key rest : List Char)
    (hpre : hasOpen (pre ++ ['{']) = false)
    (hk : key ≠ []) (hk2 : ∀ x ∈ key, x ≠ '}')
    (h1 : trimStr key ≠ "LINE_ITEMS_TABLE") (h2 : trimStr key ≠ "PRINT_DATE") :
    substPass tf date o (pre ++ '{' :: '{' :: (key ++ '}' :: '}' :: rest))
      = pre ++ (escHtml (dispOf o (trimStr key))).data ++ substPass tf date o rest := by
  rw [substPass_pre _ hpre]
  rw [substPass_cons_some (matchPHAt_head hk hk2)]
  rw [phReplace, if_neg h1, if_neg h2, List.append_assoc]

/-- C2 witness: an unknown key substitutes the empty string, silently. -/
theorem placeholders_substituted_witness :
    substPass buildLineItemsTable "1/1/2026" [] ("a".data ++ '{' :: '{' ::
        ("Missing".data ++ '}' :: '}' :: "b".data))
      = "a".data ++ (escHtml (dispOf [] (trimStr "Missing".data))).data
        ++ substPass buildLineItemsTable "1/1/2026" [] "b".data :=
  placeholders_substituted buildLineItemsTable "1/1/2026" [] "a".data "Missing".data
    "b".data (by decide) (by decide) (by decide) (by decide) (by decide)

theorem strMk_data (s : String) : String.mk s.data = s := rfl

theorem matchCondAt_no_rbrace {l : List Char} (h : ∀ x ∈ l, x ≠ '}') :
    matchCondAt l = none := by
  match l with
  | [] => rfl
  | [c1] => rfl
  | [c1, c2] => rfl
  | c1 :: c2 :: c3 :: t =>
    rw [matchCondAt]
    by_cases hb : (c1 = '{' && c2 = '{' && c3 = '#') = true
    · rw [if_pos hb]
      have hall : ∀ x ∈ t, ((fun c => c != '}') x) = true := by
        intro x hx; simp [h x (by simp [hx])]
      have hdrop : t.dropWhile (fun c => c != '}') = [] :=
        List.dropWhile_eq_nil_iff.mpr hall
      by_cases he : (t.takeWhile (fun c => c != '}')).isEmpty = true
      · rw [if_pos he]
      · rw [if_neg he, hdrop]
        rfl
    · rw [if_neg hb]

theorem matchPHAt_no_rbrace {l : List Char} (h : ∀ x ∈ l, x ≠ '}') :
    matchPHAt l = none := by
  match l with
  | [] => rfl
  | [c1] => rfl
  | c1 :: c2 :: t =>
    rw [matchPHAt]
    by_cases hb : (c1 = '{' && c2 = '{') = true
    · rw [if_pos hb]
      have hall : ∀ x ∈ t, ((fun c => c != '}') x) = true := by
        intro x hx; simp [h x (by simp [hx])]
      have hdrop : t.dropWhile (fun c => c != '}') = [] :=
        List.dropWhile_eq_nil_iff.mpr hall
      by_cases he : (t.takeWhile (fun c => c != '}')).isEmpty = true
      · rw [if_pos he]
      · rw [if_neg he, hdrop]
        rfl
    · rw [if_neg hb]

theorem condPass_id_no_rbrace {o : OrderRecord} :
    ∀ {l : List Char}, (∀ x ∈ l, x ≠ '}') → condPass o l = l := by
  intro l
  induction l with
  | nil => intro _; rfl
  | cons c cs ih =>
    intro h
    rw [condPass_cons_none (matchCondAt_no_rbrace h)]
    rw [ih (fun x hx => h x (by simp [hx]))]

theorem substPass_id_no_rbrace {tf : OrderRecord → String} {date : String}
    {o : OrderRecord} :
    ∀ {l : List Char}, (∀ x ∈ l, x ≠ '}') → substPass tf date o l = l := by
  intro l
  induction l with
  | nil => intro _; rfl
  | cons c cs ih =>
    intro h
    rw [substPass_cons_none (matchPHAt_no_rbrace h)]
    rw [ih (fun x hx => h x (by simp [hx]))]

/-- C3 (amended): rendering is a total function; a template containing no
closing brace (so no completed placeholder or block, in particular any
lone open braces) passes through both renderers verbatim. An unterminated
opening tag that is brace-complete is, however, consumed by the
placeholder pass (see the counterexample). -/
theorem render_brace_free_literal (date : String) (t : String) (o : OrderRecord)
    (h : ∀ x ∈ t.data, x ≠ '}') :
    renderPrint date t o = t ∧ renderPreviewCore date t o = t := by
  constructor
  · rw [renderPrint, renderTemplate, condPass_id_no_rbrace h,
        substPass_id_no_rbrace h, strMk_data]
  · rw [renderPreviewCore, renderTemplate, condPass_id_no_rbrace h,
        substPass_id_no_rbrace h, strMk_data]

/-- C3 witness: a template with stray open braces is returned unchanged. -/
theorem render_brace_free_literal_witness :
    renderPrint "1/1/2026" "hello \x7bworld \x7b\x7bx" [] = "hello \x7bworld \x7b\x7bx"
    ∧ renderPreviewCore "1/1/2026" "hello \x7bworld \x7b\x7bx" [] = "hello \x7bworld \x7b\x7bx" :=
  render_brace_free_literal "1/1/2026" "hello \x7bworld \x7b\x7bx" [] (by decide)

/-- C3 counterexample: an unterminated conditional block is not left as
literal text: the placeholder pass consumes its opening tag as the key
`#A` and substitutes the empty string. -/
theorem render_unterminated_cex :
    renderPrint "1/1/2026" "\x7b\x7b#A\x7d\x7dX" [] = "X"
    ∧ renderPrint "1/1/2026" "\x7b\x7b#A\x7d\x7dX" [] ≠ "\x7b\x7b#A\x7d\x7dX" :=
  ⟨by decide, by decide⟩

theorem substPass_date_irrel (tf : OrderRecord → String) (d1 d2 : String)
    (o : OrderRecord) :
    ∀ (N : Nat) (l : List Char), l.length ≤ N → usesDate l = false →
      substPass tf d1 o l = substPass tf d2 o l := by
  intro N
  induction N with
  | zero =>
    intro l h1 _
    have hl : l = [] := List.eq_nil_of_length_eq_zero (Nat.le_zero.mp h1)
    subst hl; rfl
  | succ M ih =>
    intro l h1 hu
    cases l with
    | nil => rfl
    | cons c cs =>
      cases h : matchPHAt (c :: cs) with
      | some pr =>
        obtain ⟨k, r⟩ := pr
        rw [substPass_cons_some h, substPass_cons_some h]
        rw [usesDate_cons_some h] at hu
        obtain ⟨hk, hr⟩ := Bool.or_eq_false_iff.mp hu
        have hk' : trimStr k ≠ "PRINT_DATE" := of_decide_eq_false hk
        have hph : phReplace tf d1 o k = phReplace tf d2 o k := by
          rw [phReplace, phReplace]
          by_cases hl : trimStr k = "LINE_ITEMS_TABLE"
          · rw [if_pos hl, if_pos hl]
          · rw [if_neg hl, if_neg hl, if_neg hk', if_neg hk']
        rw [hph]
        have hlen := matchPHAt_length h
        simp only [List.length_cons] at h1 hlen
        rw [ih r (by omega) hr]
      | none =>
        rw [substPass_cons_none h, substPass_cons_none h]
        rw [usesDate_cons_none h] at hu
        simp only [List.length_cons] at h1
        rw [ih cs (by omega) hu]

/-- C7 (amended): whenever the conditional-pass output performs no
print-date substitution, the rendered output is independent of the
wall-clock date, for either surface table builder; rendering is a pure
function of the template and the (unmodified) order record. The condition
must be read on the conditional-pass output: a conditional block can
splice a print-date placeholder out of fragments (see the
counterexample). -/
theorem render_deterministic (tf : OrderRecord → String) (d1 d2 : String)
    (t : String) (o : OrderRecord)
    (h : usesDate (condPass o t.data) = false) :
    renderTemplate tf d1 t o = renderTemplate tf d2 t o := by
  rw [renderTemplate, renderTemplate,
      substPass_date_irrel tf d1 d2 o (condPass o t.data).length _ le_rfl h]

/-- C7 witness: a template with an ordinary field placeholder renders
identically on two different dates. -/
theorem render_deterministic_witness :
    renderTemplate buildLineItemsTable "01/01/2026" "a\x7b\x7bB\x7d\x7dc" []
      = renderTemplate buildLineItemsTable "02/02/2026" "a\x7b\x7bB\x7d\x7dc" [] :=
  render_deterministic buildLineItemsTable "01/01/2026" "02/02/2026"
    "a\x7b\x7bB\x7d\x7dc" [] (by decide)

/-- C7 counterexample: this template contains no print-date placeholder
(the text PRINT_DATE occurs nowhere in it), yet its rendering depends on
the render-time date, because dropping the conditional block splices the
placeholder together before pass two. -/
theorem render_date_splice_cex :
    strContains "\x7b\x7bPRINT_\x7b\x7b#X\x7d\x7dz\x7b\x7b/X\x7d\x7dDATE\x7d\x7d" "PRINT_DATE" = false
    ∧ renderPrint "01/01/2026" "\x7b\x7bPRINT_\x7b\x7b#X\x7d\x7dz\x7b\x7b/X\x7d\x7dDATE\x7d\x7d" []
      ≠ renderPrint "01/02/2026" "\x7b\x7bPRINT_\x7b\x7b#X\x7d\x7dz\x7b\x7b/X\x7d\x7dDATE\x7d\x7d" [] :=
  ⟨by decide, by decide⟩

theorem strExt {a b : String} (h : a.data = b.data) : a = b := by
  cases a; cases b; exact congrArg String.mk h

set_option maxRecDepth 4000 in
theorem tableOpen_ne_msg (s t : String) : (tableOpen ++ s) ++ t ≠ noItemsMsg := by
  intro h
  have h1 : ((tableOpen ++ s) ++ t).data.get? 1 = noItemsMsg.data.get? 1 := by rw [h]
  have hlen : 1 < tableOpen.data.length := by decide
  have h2 : ((tableOpen ++ s) ++ t).data.get? 1 = some 't' := by
    rw [String.data_append, String.data_append]
    rw [List.get?_append (by rw [List.length_append]; omega)]
    rw [List.get?_append hlen]
    decide
  have h3 : noItemsMsg.data.get? 1 = some 'p' := by decide
  rw [h2, h3] at h1
  exact absurd h1 (by decide)

/-- C4: the print table builder returns the fixed no-items message exactly
when the reserved field is absent, not a list, or an empty list; for a
non-empty list it emits the fixed header followed by one row per item in
the input order (a map over the list: nothing dropped, nothing sorted,
nothing deduplicated). -/
theorem line_items_table_spec (o : OrderRecord) :
    (∀ l, List.lookup "Line Items" o = some (Value.items l) → l ≠ [] →
        buildLineItemsTable o = tableOpen ++ String.join (l.map printRow) ++ tableClose)
    ∧ (buildLineItemsTable o = noItemsMsg ↔
        ∀ l, List.lookup "Line Items" o = some (Value.items l) → l = [])
    ∧ (∀ l, List.lookup "Line Items" o = some (Value.items l) → l ≠ [] →
        buildLineItemsTablePreview o
          = tableOpen ++ String.join (l.map previewRow) ++ tableClose)
    ∧ (buildLineItemsTablePreview o = noItemsMsg ↔
        ∀ l, List.lookup "Line Items" o = some (Value.items l) → l = []) := by
  have hpart : ∀ l, List.lookup "Line Items" o = some (Value.items l) → l ≠ [] →
      buildLineItemsTable o = tableOpen ++ String.join (l.map printRow) ++ tableClose := by
    intro l hl hne
    simp only [buildLineItemsTable, hl]
    rw [if_neg (by simp [hne])]
  have hpart2 : ∀ l, List.lookup "Line Items" o = some (Value.items l) → l ≠ [] →
      buildLineItemsTablePreview o
        = tableOpen ++ String.join (l.map previewRow) ++ tableClose := by
    intro l hl hne
    simp only [buildLineItemsTablePreview, hl]
    rw [if_neg (by simp [hne])]
  refine ⟨hpart, ⟨?_, ?_⟩, hpart2, ?_, ?_⟩
  · intro hmsg l hl
    by_contra hne
    rw [hpart l hl hne] at hmsg
    exact tableOpen_ne_msg (String.join (l.map printRow)) tableClose hmsg
  · intro hempty
    cases hl : List.lookup "Line Items" o with
    | none => simp [buildLineItemsTable, hl]
    | some v =>
      cases v with
      | str s => simp [buildLineItemsTable, hl]
      | num n => simp [buildLineItemsTable, hl]
      | items l =>
        have hnil : l = [] := hempty l hl
        subst hnil
        simp [buildLineItemsTable, hl]
  · intro hmsg l hl
    by_contra hne
    rw [hpart2 l hl hne] at hmsg
    exact tableOpen_ne_msg (String.join (l.map previewRow)) tableClose hmsg
  · intro hempty
    cases hl : List.lookup "Line Items" o with
    | none => simp [buildLineItemsTablePreview, hl]
    | some v =>
      cases v with
      | str s => simp [buildLineItemsTablePreview, hl]
      | num n => simp [buildLineItemsTablePreview, hl]
      | items l =>
        have hnil : l = [] := hempty l hl
        subst hnil
        simp [buildLineItemsTablePreview, hl]

/-- C4 witness: a one-item list yields the table with exactly that row. -/
theorem line_items_table_spec_witness :
    buildLineItemsTable
        [("Line Items", Value.items [[("Product Description", Scalar.str "Cake"),
          ("CakeQty", Scalar.num 2)]])]
      = tableOpen ++ String.join ([[("Product Description", Scalar.str "Cake"),
          ("CakeQty", Scalar.num 2)]].map printRow) ++ tableClose :=
  (line_items_table_spec _).1 _ (by decide) (by decide)

/-- The per-candidate filter used by the specification reading of the
synonym lists: a key contributes its value only when it is present and
truthy. -/
def lookAt (item : LineItem) (k : String) : Option Scalar :=
  match List.lookup k item with
  | some v => if v.truthy then some v else none
  | none => none

/-- The specification reading of a candidate list: the display string of
the first present, truthy candidate, empty if there is none. -/
def specFirstTruthy (item : LineItem) (keys : List String) : String :=
  match keys.findSome? (lookAt item) with
  | some v => v.display
  | none => ""

/-- The shape of the source `||` chains: every candidate except the last
is combined with the JavaScript or, the last is looked up raw. -/
def jsChain (item : LineItem) : List String → Option Scalar
  | [] => none
  | [k] => List.lookup k item
  | k :: ks => jsOrS (List.lookup k item) (jsChain item ks)

theorem displayOrEmpty_tail (a : Option Scalar) :
    displayOrEmpty a = displayOrEmpty (jsOrS a none) := by
  cases a with
  | none => rfl
  | some v =>
    rw [jsOrS]
    by_cases ht : v.truthy
    · rw [if_pos ht]
    · rw [if_neg ht, displayOrEmpty, if_neg ht]
      rfl

theorem spec_chain_step (item : LineItem) (k : String) (b : Option Scalar) :
    displayOrEmpty (jsOrS (List.lookup k item) b)
      = match lookAt item k with
        | some v => v.display
        | none => displayOrEmpty b := by
  cases h : List.lookup k item with
  | none => simp only [lookAt, jsOrS, h]
  | some v =>
    by_cases ht : v.truthy
    · simp only [lookAt, jsOrS, h, if_pos ht, displayOrEmpty]
    · simp only [lookAt, jsOrS, h, if_neg ht]

theorem specFirstTruthy_cons (item : LineItem) (k : String) (ks : List String) :
    specFirstTruthy item (k :: ks)
      = match lookAt item k with
        | some v => v.display
        | none => specFirstTruthy item ks := by
  rw [specFirstTruthy, List.findSome?_cons]
  cases lookAt item k with
  | none => rfl
  | some v => rfl

theorem jsChain_spec : ∀ (keys : List String) (item : LineItem),
    displayOrEmpty (jsChain item keys) = specFirstTruthy item keys := by
  intro keys
  induction keys with
  | nil => intro item; rfl
  | cons k ks ih =>
    intro item
    cases ks with
    | nil =>
      rw [show jsChain item [k] = List.lookup k item from rfl]
      rw [displayOrEmpty_tail, spec_chain_step, specFirstTruthy_cons]
      cases lookAt item k with
      | none => rfl
      | some v => rfl
    | cons k2 ks2 =>
      rw [show jsChain item (k :: k2 :: ks2)
            = jsOrS (List.lookup k item) (jsChain item (k2 :: ks2)) from rfl]
      rw [spec_chain_step, specFirstTruthy_cons]
      cases lookAt item k with
      | none => exact ih item
      | some v => rfl

/-- C5 (amended): in each context the displayed product and quantity texts
equal the display string of the first present and truthy candidate, tried
in the documented order (preview: the five product keys and three quantity
keys; print: the single keys), and the empty string when no candidate is
present and truthy. A present but falsy candidate (empty string or the
number zero) is skipped, not used. -/
theorem line_item_candidate_fields (item : LineItem) :
    previewProduct item = specFirstTruthy item
        ["Product Name", "Product", "Item", "Order Details", "Description"]
    ∧ previewQty item = specFirstTruthy item ["Qty", "Quantity", "QTY"]
    ∧ getDisplayOr item "Product Description"
        = specFirstTruthy item ["Product Description"]
    ∧ getDisplayOr item "CakeQty" = specFirstTruthy item ["CakeQty"] := by
  refine ⟨?_, ?_, ?_, ?_⟩
  · rw [show previewProduct item = displayOrEmpty (jsChain item
        ["Product Name", "Product", "Item", "Order Details", "Description"]) from rfl]
    exact jsChain_spec _ item
  · rw [show previewQty item
        = displayOrEmpty (jsChain item ["Qty", "Quantity", "QTY"]) from rfl]
    exact jsChain_spec _ item
  · rw [show getDisplayOr item "Product Description"
        = displayOrEmpty (jsChain item ["Product Description"]) from rfl]
    exact jsChain_spec _ item
  · rw [show getDisplayOr item "CakeQty"
        = displayOrEmpty (jsChain item ["CakeQty"]) from rfl]
    exact jsChain_spec _ item

/-- C5 counterexample: the first candidate `Qty` is present with value
zero, whose display string `0` is non-empty, yet the preview quantity
text comes from the later candidate `Quantity`, because zero is falsy. -/
theorem candidate_zero_skipped_cex :
    List.lookup "Qty" [("Qty", Scalar.num 0), ("Quantity", Scalar.num 5)]
        = some (Scalar.num 0)
    ∧ Scalar.display (Scalar.num 0) ≠ ""
    ∧ previewQty [("Qty", Scalar.num 0), ("Quantity", Scalar.num 5)] = "5"
    ∧ previewQty [("Qty", Scalar.num 0), ("Quantity", Scalar.num 5)]
        ≠ Scalar.display (Scalar.num 0) :=
  ⟨by decide, by decide, by decide, by decide⟩

/-- The four optional sub-detail fields of the print table, with their
labels, in emission order. -/
def printSubFields : List (String × String) :=
  [("Writing Notes", "Writing"), ("Color", "Color"),
   ("Add-Ons", "Add-Ons"), ("Line Item Notes", "Notes")]

theorem divSub_ne_empty (label : String) (v : Scalar) :
    "<div class=\"slip-sub\">" ++ label ++ ": " ++ escHtml v.display ++ "</div>" ≠ "" := by
  intro h
  have hl := congrArg String.length h
  rw [String.length_append, String.length_append, String.length_append,
      String.length_append] at hl
  have h22 : ("<div class=\"slip-sub\">" : String).length = 22 := by decide
  have h0 : ("" : String).length = 0 := by decide
  rw [h22, h0] at hl
  omega

/-- C6 (amended): the detail cell of a print-context row is the escaped
product text followed by the sub-lines of exactly the four optional
fields writing notes, color, add-ons and line-item notes, in that order;
a sub-line is present (labeled and individually escaped) precisely when
its field is present and truthy, and absent otherwise. No flavor sub-line
is emitted by this builder. -/
theorem detail_sub_lines (item : LineItem) :
    printRow item =
      "<tr>\n      <td class=\"slip-check-cell\"></td>\n      <td class=\"slip-detail-cell\">"
      ++ escHtml (getDisplayOr item "Product Description")
      ++ String.join (printSubFields.map fun p => subLine item p.1 p.2)
      ++ "</td>\n      <td class=\"slip-qty-cell\">"
      ++ escHtml (getDisplayOr item "CakeQty")
      ++ "</td>\n    </tr>"
    ∧ (∀ k label, (subLine item k label = "" ↔ lookAt item k = none))
    ∧ (∀ k label v, lookAt item k = some v →
        subLine item k label = "<div class=\"slip-sub\">" ++ label ++ ": "
          ++ escHtml v.display ++ "</div>") := by
  refine ⟨?_, ?_, ?_⟩
  · apply strExt
    simp only [printRow, printSubFields, List.map, String.join, List.foldl]
    simp [String.data_append]
  · intro k label
    cases h : List.lookup k item with
    | none => simp only [subLine, lookAt, h]
    | some v =>
      by_cases ht : v.truthy
      · simp only [subLine, lookAt, h, if_pos ht]
        constructor
        · intro he; exact absurd he (divSub_ne_empty label v)
        · intro he; exact absurd he (by simp)
      · simp only [subLine, lookAt, h, if_neg ht]
  · intro k label v hv
    cases h : List.lookup k item with
    | none =>
      simp only [lookAt, h] at hv
      exact absurd hv (by simp)
    | some w =>
      simp only [lookAt, h] at hv
      by_cases ht : w.truthy
      · rw [if_pos ht] at hv
        have hw : w = v := Option.some.inj hv
        subst hw
        simp only [subLine, h, if_pos ht]
      · rw [if_neg ht] at hv; exact absurd hv (by simp)

/-- C6 witness: a present writing-notes field yields its labeled escaped
sub-line. -/
theorem detail_sub_lines_witness :
    subLine [("Writing Notes", Scalar.str "Happy Bday")] "Writing Notes" "Writing"
      = "<div class=\"slip-sub\">" ++ "Writing" ++ ": "
        ++ escHtml (Scalar.str "Happy Bday").display ++ "</div>" :=
  (detail_sub_lines [("Writing Notes", Scalar.str "Happy Bday")]).2.2
    "Writing Notes" "Writing" (Scalar.str "Happy Bday") (by decide)

set_option maxRecDepth 8000 in
/-- C6 counterexample: a line item with a non-empty Flavor field produces
a table containing no trace of that value: the print table builder emits
no flavor sub-line (flavor appears only in the order-details modal). -/
theorem flavor_not_in_table_cex :
    List.lookup "Flavor" [("Product Description", Scalar.str "Cake"),
        ("Flavor", Scalar.str "Vanilla")] = some (Scalar.str "Vanilla")
    ∧ Scalar.display (Scalar.str "Vanilla") ≠ ""
    ∧ strContains (buildLineItemsTable [("Line Items", Value.items
        [[("Product Description", Scalar.str "Cake"),
          ("Flavor", Scalar.str "Vanilla")]])]) "Vanilla" = false :=
  ⟨by decide, by decide, by decide⟩

/-- C8: the field catalog lists exactly the record's field names minus the
reserved line-items field, in record order, followed by the two synthetic
entries in their fixed order; every preview text is at most forty
characters; each data-derived entry carries the forty-character truncation
of its display string, a prefix with no ellipsis marker added. -/
theorem field_catalog_spec (o : OrderRecord) :
    ((buildFieldCatalog o).map Prod.fst
       = (o.map Prod.fst).filter (fun k => k != "Line Items")
         ++ ["LINE_ITEMS_TABLE", "PRINT_DATE"])
    ∧ (∀ p ∈ buildFieldCatalog o, p.2.data.length ≤ 40)
    ∧ (∀ k, k ∈ o.map Prod.fst → k ≠ "Line Items" →
        (k, String.mk ((dispOf o k).data.take 40)) ∈ buildFieldCatalog o)
    ∧ (∀ k, ((dispOf o k).data.take 40) <+: (dispOf o k).data) := by
  refine ⟨?_, ?_, ?_, ?_⟩
  · rw [buildFieldCatalog, List.map_append, List.map_map]
    simp [Function.comp_def]
  · intro p hp
    rw [buildFieldCatalog] at hp
    rcases List.mem_append.mp hp with hd | hs
    · obtain ⟨k, _, hpk⟩ := List.mem_map.mp hd
      rw [← hpk]
      simp only [String.mk]
      have := List.length_take 40 (dispOf o k).data
      simp only [this]
      exact min_le_left _ _
    · simp only [List.mem_cons, List.mem_singleton] at hs
      rcases hs with h1 | h1 | h1
      · rw [h1]; decide
      · rw [h1]; decide
      · exact absurd h1 (by simp)
  · intro k hk hne
    rw [buildFieldCatalog]
    apply List.mem_append.mpr
    left
    apply List.mem_map.mpr
    exact ⟨k, List.mem_filter.mpr ⟨hk, by simp [hne]⟩, rfl⟩
  · intro k
    exact List.take_prefix 40 (dispOf o k).data

/-- C8 witness: for a record with a data field and a line-items field, the
data field appears in the catalog with its truncated display text. -/
theorem field_catalog_spec_witness :
    ("X", String.mk ((dispOf [("X", Value.num 1), ("Line Items", Value.items [])] "X").data.take 40))
      ∈ buildFieldCatalog [("X", Value.num 1), ("Line Items", Value.items [])] :=
  (field_catalog_spec [("X", Value.num 1), ("Line Items", Value.items [])]).2.2.1
    "X" (by decide) (by decide)

/-- C9: the default template shipped by the editing surface (designer.js)
is character for character the default template shipped by the printing
surface (app.js). -/
theorem default_templates_agree : DEFAULT_TEMPLATE_designer = DEFAULT_TEMPLATE_app := rfl

/-- The character-wise reading of the escaper: the four special characters
map to their entities, every other character passes through unchanged. -/
def escCharSpec (c : Char) : List Char :=
  if c = '&' then "&amp;".data
  else if c = '<' then "&lt;".data
  else if c = '>' then "&gt;".data
  else if c = '"' then "&quot;".data
  else [c]

theorem replaceCharL_append (c : Char) (rep : List Char) (a b : List Char) :
    replaceCharL c rep (a ++ b) = replaceCharL c rep a ++ replaceCharL c rep b := by
  simp [replaceCharL]

theorem escHtmlL_append (a b : List Char) :
    escHtmlL (a ++ b) = escHtmlL a ++ escHtmlL b := by
  simp [escHtmlL, replaceCharL_append]

theorem escHtmlL_singleton (c : Char) : escHtmlL [c] = escCharSpec c := by
  by_cases h1 : c = '&'
  · subst h1; decide
  by_cases h2 : c = '<'
  · subst h2; decide
  by_cases h3 : c = '>'
  · subst h3; decide
  by_cases h4 : c = '"'
  · subst h4; decide
  simp [escHtmlL, replaceCharL, escCharSpec, h1, h2, h3, h4]

theorem escHtmlL_flatMap : ∀ l : List Char, escHtmlL l = l.flatMap escCharSpec := by
  intro l
  induction l with
  | nil => rfl
  | cons c t ih =>
    rw [show (c :: t) = [c] ++ t from rfl, escHtmlL_append, escHtmlL_singleton, ih]
    simp [List.flatMap_cons]

theorem count_escCharSpec (c : Char) :
    (escCharSpec c).count (Char.ofNat 39) = ([c]).count (Char.ofNat 39) := by
  by_cases h1 : c = '&'
  · subst h1; decide
  by_cases h2 : c = '<'
  · subst h2; decide
  by_cases h3 : c = '>'
  · subst h3; decide
  by_cases h4 : c = '"'
  · subst h4; decide
  simp [escCharSpec, h1, h2, h3, h4]

/-- C10: the escaper is the character-wise map that rewrites exactly the
four characters ampersand, less-than, greater-than and double quote;
single quotes pass through unchanged (their count is preserved and the
single-quote character maps to itself). -/
theorem esc_html_single_quotes (s : String) :
    (escHtml s).data = s.data.flatMap escCharSpec
    ∧ (escHtml s).data.count (Char.ofNat 39) = s.data.count (Char.ofNat 39)
    ∧ escCharSpec (Char.ofNat 39) = [Char.ofNat 39] := by
  refine ⟨escHtmlL_flatMap s.data, ?_, by decide⟩
  rw [show (escHtml s).data = escHtmlL s.data from rfl, escHtmlL_flatMap]
  induction s.data with
  | nil => rfl
  | cons c t ih =>
    rw [List.flatMap_cons, List.count_append, ih, count_escCharSpec]
    simp [List.count_cons, Nat.add_comm]
